import Mathlib

/-!
Verification of the LOG-SLEUTH analysis pipeline.

Strings are modelled as List Char.  The JavaScript string operations used by
the source (split on newline, trim, toLowerCase, includes, slice, join) are
embedded below with their JS semantics.  The frontend pipeline
(src/services/geminiService.ts) and the backend service class
(GeminiService, src/unnamed/part_006) are embedded in namespaces
Frontend and Backend respectively.  The AI call is modelled as an
explicit invoker argument (each attempt either yields a parsed analysis
value or fails with an error message), and the clock read
(new Date().toISOString() in the backend) as an explicit parameter.
-/

namespace LogSleuth

/-- Prepend a character onto the first piece of a split. -/
def consHead (c : Char) : List (List Char) → List (List Char)
  | [] => [[c]]
  | l :: ls => (c :: l) :: ls

/-- Embedding of JavaScript split on the newline character: split a
character list at every newline; the empty string yields one empty piece. -/
def splitNl : List Char → List (List Char)
  | [] => [[]]
  | c :: cs => if c = '\n' then [] :: splitNl cs else consHead c (splitNl cs)

/-- Embedding of JavaScript array.join with a newline separator. -/
def joinNl : List (List Char) → List Char
  | [] => []
  | [l] => l
  | l :: ls => l ++ '\n' :: joinNl ls

/-- Embedding of JavaScript s.trim(): drop leading and trailing whitespace. -/
def trimChars (l : List Char) : List Char :=
  ((l.dropWhile Char.isWhitespace).reverse.dropWhile Char.isWhitespace).reverse

/-- Embedding of JavaScript s.toLowerCase() (ASCII fragment). -/
def lowerChars (l : List Char) : List Char :=
  l.map Char.toLower

/-- Check whether the second list occurs at the start of the first. -/
def beginsWith : List Char → List Char → Bool
  | _, [] => true
  | [], _ :: _ => false
  | a :: as, b :: bs => a == b && beginsWith as bs

/-- Embedding of JavaScript hay.includes(needle): substring test. -/
def containsSub (hay needle : List Char) : Bool :=
  hay.tails.any (fun t => beginsWith t needle)

/-- Embedding of JavaScript s.slice(-n) for n greater than 0, both on strings
and on arrays: the last min n (length l) elements. -/
def sliceLast {α : Type} (n : Nat) (l : List α) : List α :=
  l.drop (l.length - n)

/-- Decimal digits of a natural number, used to embed JS template literals
that interpolate a count. -/
def natChars (n : Nat) : List Char :=
  Nat.toDigits 10 n

/-- Severity enumeration of a security threat (types.ts). -/
inductive Severity where
  | Critical
  | High
  | Medium
  | Low
  | Informational
deriving DecidableEq

/-- Type enumeration of an operational issue (types.ts). -/
inductive IssueType where
  | Error
  | Warning
  | Performance
  | Info
deriving DecidableEq

/-- Overall risk level enumeration (backend LogAnalysis type). -/
inductive RiskLevel where
  | Critical
  | High
  | Medium
  | Low
deriving DecidableEq

/-- Dynamically typed JavaScript value, as needed for the fields of the
JSON object parsed out of the model response.  Numbers are modelled as
integers (JSON numbers reaching this code are finite). -/
inductive JsValue where
  | undefined
  | null
  | bool (b : Bool)
  | num (n : Int)
  | str (s : List Char)
  | obj
deriving DecidableEq

/-- JavaScript truthiness of a JsValue. -/
def jsTruthy : JsValue → Bool
  | .undefined => false
  | .null => false
  | .bool b => b
  | .num n => n != 0
  | .str s => !s.isEmpty
  | .obj => true

/-- Embedding of the JavaScript expression a or-else b (the logical-or
defaulting idiom x || y). -/
def jsOr (a b : JsValue) : JsValue :=
  if jsTruthy a then a else b

/-- Embedding of JavaScript parseInt on a string (decimal fragment, with
the 0x hexadecimal prefix): skip leading whitespace, optional sign, then
read digits; none when no digit is found (NaN). -/
def readDigits (acc : Int) (sawDigit : Bool) : List Char → Option Int
  | [] => if sawDigit then some acc else none
  | c :: cs =>
    if c.isDigit then readDigits (acc * 10 + (c.toNat - 48)) true cs
    else if sawDigit then some acc else none

/-- Read hexadecimal digits for the parseInt 0x branch. -/
def readHexDigits (acc : Int) (sawDigit : Bool) : List Char → Option Int
  | [] => if sawDigit then some acc else none
  | c :: cs =>
    if c.isDigit then readHexDigits (acc * 16 + (c.toNat - 48)) true cs
    else if 'a' ≤ c.toLower ∧ c.toLower ≤ 'f' then
      readHexDigits (acc * 16 + (c.toLower.toNat - 87)) true cs
    else if sawDigit then some acc else none

/-- Embedding of JavaScript parseInt on a character list. -/
def parseIntChars (s : List Char) : Option Int :=
  let rest := s.dropWhile Char.isWhitespace
  let core := fun (l : List Char) =>
    match l with
    | '0' :: 'x' :: ds => readHexDigits 0 false ds
    | '0' :: 'X' :: ds => readHexDigits 0 false ds
    | ds => readDigits 0 false ds
  match rest with
  | '-' :: ds => (core ds).map (fun n => -n)
  | '+' :: ds => core ds
  | ds => core ds

namespace Frontend

/-- Frontend SecurityThreat (types.ts), with the validated severity enum. -/
structure SecurityThreat where
  severity : Severity
  description : List Char
  recommendation : List Char
  timestamp : List Char
deriving DecidableEq

/-- Frontend OperationalIssue (types.ts). -/
structure OperationalIssue where
  type : IssueType
  description : List Char
  recommendation : List Char
  timestamp : List Char
deriving DecidableEq

/-- Frontend LogAnalysis (types.ts): no totals and no overall risk level. -/
structure LogAnalysis where
  summary : List Char
  securityThreats : List SecurityThreat
  operationalIssues : List OperationalIssue
deriving DecidableEq

/-- Maximum characters for log analysis (geminiService.ts). -/
def MAX_LOG_SIZE : Nat := 50000

/-- Maximum retry attempts (geminiService.ts). -/
def MAX_RETRIES : Nat := 2

/-- The lines kept by the cleaning phase of preprocessLogs: split into
lines, trim each line, drop lines that became empty. -/
def keptLines (logs : List Char) : List (List Char) :=
  ((splitNl logs).map trimChars).filter (fun line => decide (0 < line.length))

/-- The cleaning phase of preprocessLogs: split into lines, trim each
line, drop lines that became empty, rejoin with single newlines. -/
def normalizeLogs (logs : List Char) : List Char :=
  joinNl (keptLines logs)

/-- Embedding of preprocessLogs (geminiService.ts lines 82-98). -/
def preprocessLogs (logs : List Char) : List Char :=
  let cleaned := normalizeLogs logs
  if MAX_LOG_SIZE < cleaned.length then
    let lines := splitNl cleaned
    let truncatedLines := sliceLast (MAX_LOG_SIZE / 100) lines
    sliceLast MAX_LOG_SIZE (joinNl truncatedLines)
  else
    cleaned

/-- Error keyword list of the frontend fallback analyzer. -/
def errorKeywords : List (List Char) :=
  ["error".toList, "fail".toList, "exception".toList, "crash".toList, "abort".toList]

/-- Warning keyword list of the frontend fallback analyzer. -/
def warningKeywords : List (List Char) :=
  ["warn".toList, "warning".toList, "caution".toList]

/-- Security keyword list of the frontend fallback analyzer. -/
def securityKeywords : List (List Char) :=
  ["login".toList, "auth".toList, "unauthorized".toList, "forbidden".toList,
   "attack".toList, "breach".toList, "hack".toList, "intrusion".toList]

/-- One line matches a keyword list when its lowercase form has some
keyword as a substring, as in keywords.some(k, line.toLowerCase().includes(k)). -/
def matchesAny (keywords : List (List Char)) (line : List Char) : Bool :=
  keywords.any (fun keyword => containsSub (lowerChars line) keyword)

/-- The lines of the preprocessed log that trip an error keyword. -/
def errorLinesOf (logs : List Char) : List (List Char) :=
  (splitNl logs).filter (matchesAny errorKeywords)

/-- The lines of the preprocessed log that trip a warning keyword. -/
def warningLinesOf (logs : List Char) : List (List Char) :=
  (splitNl logs).filter (matchesAny warningKeywords)

/-- The lines of the preprocessed log that trip a security keyword. -/
def securityLinesOf (logs : List Char) : List (List Char) :=
  (splitNl logs).filter (matchesAny securityKeywords)

/-- Embedding of the frontend createFallbackAnalysis
(geminiService.ts lines 177-222). -/
def createFallbackAnalysis (logs : List Char) (originalError : Option (List Char)) :
    LogAnalysis :=
  let lines := splitNl logs
  let errLs := errorLinesOf logs
  let warnLs := warningLinesOf logs
  let secLs := securityLinesOf logs
  let securityThreats := (secLs.take 3).map (fun line =>
    { severity := Severity.Medium
      description := "Potential security event: ".toList ++ line.take 100 ++ "...".toList
      recommendation := "Review this log entry for security implications".toList
      timestamp := "N/A".toList : SecurityThreat })
  let operationalIssues :=
    (errLs.take 3).map (fun line =>
      { type := IssueType.Error
        description := "Error detected: ".toList ++ line.take 100 ++ "...".toList
        recommendation := "Investigate and resolve this error".toList
        timestamp := "N/A".toList : OperationalIssue })
    ++ (warnLs.take 2).map (fun line =>
      { type := IssueType.Warning
        description := "Warning found: ".toList ++ line.take 100 ++ "...".toList
        recommendation := "Monitor this warning".toList
        timestamp := "N/A".toList : OperationalIssue })
  { summary :=
      "Fallback analysis completed due to AI service issues".toList
        ++ (match originalError with
            | some msg => ": ".toList ++ msg
            | none => [])
        ++ ". Found ".toList ++ natChars errLs.length
        ++ " errors, ".toList ++ natChars warnLs.length
        ++ " warnings, and ".toList ++ natChars secLs.length
        ++ " potential security events in ".toList ++ natChars lines.length
        ++ " log lines.".toList
    securityThreats := securityThreats
    operationalIssues := operationalIssues }

/-- Outcome of one attempt of the AI invoker: either a parsed LogAnalysis
(the JSON.parse cast succeeds) or an error (timeout, transport, parse). -/
inductive AttemptOutcome where
  | success (result : LogAnalysis)
  | failure (message : List Char)

/-- Result of the retry for-loop of analyzeLogs, with the number of
attempts made and the backoff delays slept between consecutive attempts. -/
inductive LoopResult where
  | success (attemptsMade : Nat) (delays : List Nat) (result : LogAnalysis)
  | exhausted (attemptsMade : Nat) (delays : List Nat) (lastError : Option (List Char))

/-- Embedding of the for-loop of analyzeLogs (geminiService.ts lines
126-169): attempt numbers count from 1; on failure of attempt a with
attempts remaining, sleep 1000 * a then retry; on failure of the last
attempt, break with the last error. -/
def loopGo (invoker : Nat → AttemptOutcome) :
    Nat → Nat → List Nat → Option (List Char) → LoopResult
  | attempt, 0, delays, lastErr => .exhausted (attempt - 1) delays lastErr
  | attempt, r + 1, delays, _ =>
    match invoker attempt with
    | .success res => .success attempt delays res
    | .failure msg =>
      if r = 0 then .exhausted attempt delays (some msg)
      else loopGo invoker (attempt + 1) r (delays ++ [1000 * attempt]) (some msg)

deriving instance DecidableEq for Except

/-- Observable trace of one analyzeLogs run: attempts made, delays slept,
and either the thrown error or the returned analysis. -/
structure AnalyzeTrace where
  attempts : Nat
  delays : List Nat
  outcome : Except (List Char) LogAnalysis
deriving DecidableEq

/-- Embedding of analyzeLogs (geminiService.ts lines 110-174). -/
def analyzeLogs (invoker : Nat → AttemptOutcome) (logs : List Char) : AnalyzeTrace :=
  if (trimChars logs).length = 0 then
    { attempts := 0, delays := [], outcome := .error "Log content cannot be empty".toList }
  else
    let processedLogs := preprocessLogs logs
    if processedLogs.length = 0 then
      { attempts := 0, delays := []
        outcome := .error "No valid log content found after preprocessing".toList }
    else
      match loopGo invoker 1 MAX_RETRIES [] none with
      | .success attemptsMade delays result =>
        { attempts := attemptsMade, delays := delays, outcome := .ok result }
      | .exhausted attemptsMade delays lastErr =>
        { attempts := attemptsMade, delays := delays
          outcome := .ok (createFallbackAnalysis processedLogs lastErr) }

end Frontend

namespace Backend

/-- Security threat as it arrives from JSON.parse of the model reply:
every field is an arbitrary JavaScript value when present or absent. -/
structure RawThreat where
  severity : JsValue
  description : JsValue
  recommendation : JsValue
  timestamp : JsValue
  category : JsValue
  riskScore : JsValue
deriving DecidableEq

/-- Operational issue as it arrives from JSON.parse of the model reply. -/
structure RawIssue where
  type : JsValue
  description : JsValue
  recommendation : JsValue
  timestamp : JsValue
  category : JsValue
  impact : JsValue
deriving DecidableEq

/-- Output of parseAnalysisResponse: defaulted summary and totals, raw
threat and issue entries not yet validated. -/
structure RawAnalysis where
  summary : JsValue
  securityThreats : List RawThreat
  operationalIssues : List RawIssue
  totalThreats : JsValue
  totalIssues : JsValue
  overallRiskLevel : JsValue
deriving DecidableEq

/-- Backend SecurityThreat after validation: severity is one of the five
enum values, riskScore a clamped integer. -/
structure SecurityThreat where
  severity : Severity
  description : JsValue
  recommendation : JsValue
  timestamp : JsValue
  category : JsValue
  riskScore : Int
deriving DecidableEq

/-- Backend OperationalIssue after validation. -/
structure OperationalIssue where
  type : IssueType
  description : JsValue
  recommendation : JsValue
  timestamp : JsValue
  category : JsValue
  impact : JsValue
deriving DecidableEq

/-- Backend LogAnalysis (backend types): the validated result with
recomputed totals and overall risk level. -/
structure LogAnalysis where
  summary : JsValue
  securityThreats : List SecurityThreat
  operationalIssues : List OperationalIssue
  totalThreats : Nat
  totalIssues : Nat
  overallRiskLevel : RiskLevel
deriving DecidableEq

/-- The JSON object extracted from the model reply, before the
field-defaulting of parseAnalysisResponse; the two entry arrays are
none when the corresponding field is absent. -/
structure ParsedObj where
  summary : JsValue
  securityThreats : Option (List RawThreat)
  operationalIssues : Option (List RawIssue)
  totalThreats : JsValue
  totalIssues : JsValue
  overallRiskLevel : JsValue
deriving DecidableEq

/-- Optional-chaining length access: the JS expression xs?.length, which
is absent when the array is absent. -/
def optLen {α : Type} : Option (List α) → JsValue
  | some l => .num l.length
  | none => .undefined

/-- Embedding of parseAnalysisResponse (part_006 lines 95-118), given a
successfully extracted and parsed JSON object. -/
def parseAnalysisResponse (parsed : ParsedObj) : RawAnalysis :=
  { summary := jsOr parsed.summary (.str "Analysis completed".toList)
    securityThreats := parsed.securityThreats.getD []
    operationalIssues := parsed.operationalIssues.getD []
    totalThreats := jsOr (jsOr parsed.totalThreats (optLen parsed.securityThreats)) (.num 0)
    totalIssues := jsOr (jsOr parsed.totalIssues (optLen parsed.operationalIssues)) (.num 0)
    overallRiskLevel := jsOr parsed.overallRiskLevel (.str "Low".toList) }

/-- Embedding of validateSeverity (part_006 lines 225-228): the value is
kept when it is one of the five valid severity strings, else Medium. -/
def validateSeverity (severity : JsValue) : Severity :=
  if severity = .str "Critical".toList then .Critical
  else if severity = .str "High".toList then .High
  else if severity = .str "Medium".toList then .Medium
  else if severity = .str "Low".toList then .Low
  else if severity = .str "Informational".toList then .Informational
  else .Medium

/-- Embedding of validateIssueType (part_006 lines 233-236). -/
def validateIssueType (type : JsValue) : IssueType :=
  if type = .str "Error".toList then .Error
  else if type = .str "Warning".toList then .Warning
  else if type = .str "Performance".toList then .Performance
  else if type = .str "Info".toList then .Info
  else .Info

/-- Embedding of validateRiskScore (part_006 lines 241-244): a number is
used as is, anything else goes through parseInt with 0 for NaN, and the
result is clamped to the interval from 0 to 100. -/
def validateRiskScore (score : JsValue) : Int :=
  let numScore : Int :=
    match score with
    | .num n => n
    | .str s =>
      match parseIntChars s with
      | some k => k
      | none => 0
    | _ => 0
  max 0 (min 100 numScore)

/-- Embedding of calculateOverallRiskLevel (part_006 lines 249-272). -/
def calculateOverallRiskLevel (threats : List SecurityThreat)
    (issues : List OperationalIssue) : RiskLevel :=
  if threats.any (fun t => t.severity == Severity.Critical) then .Critical
  else
    let highThreats := (threats.filter (fun t => t.severity == Severity.High)).length
    let mediumThreats := (threats.filter (fun t => t.severity == Severity.Medium)).length
    let errors := (issues.filter (fun i => i.type == IssueType.Error)).length
    if 0 < highThreats ∨ 5 < errors ∨ 3 < mediumThreats then .High
    else if 0 < mediumThreats ∨ 0 < errors ∨ 3 < issues.length then .Medium
    else .Low

/-- Embedding of validateAndEnhanceAnalysis (part_006 lines 123-156);
now is the value of new Date().toISOString() at the call. -/
def validateAndEnhanceAnalysis (analysis : RawAnalysis) (now : List Char) : LogAnalysis :=
  let securityThreats := analysis.securityThreats.map (fun threat =>
    { severity := validateSeverity threat.severity
      description := jsOr threat.description (.str "Security threat detected".toList)
      recommendation := jsOr threat.recommendation (.str "Further investigation required".toList)
      timestamp := jsOr threat.timestamp (.str now)
      category := jsOr threat.category (.str "General".toList)
      riskScore := validateRiskScore threat.riskScore : SecurityThreat })
  let operationalIssues := analysis.operationalIssues.map (fun issue =>
    { type := validateIssueType issue.type
      description := jsOr issue.description (.str "Operational issue detected".toList)
      recommendation := jsOr issue.recommendation (.str "Review and address issue".toList)
      timestamp := jsOr issue.timestamp (.str now)
      category := jsOr issue.category (.str "General".toList)
      impact := jsOr issue.impact (.str "Unknown impact".toList) : OperationalIssue })
  { summary := analysis.summary
    securityThreats := securityThreats
    operationalIssues := operationalIssues
    totalThreats := securityThreats.length
    totalIssues := operationalIssues.length
    overallRiskLevel := calculateOverallRiskLevel securityThreats operationalIssues }

/-- Embedding of the backend createFallbackAnalysis (part_006 lines
161-220); now is the value of new Date().toISOString() at the call. -/
def createFallbackAnalysis (logContent : List Char) (now : List Char) : LogAnalysis :=
  let lines := splitNl logContent
  let errorLines := lines.filter (fun line =>
    containsSub (lowerChars line) "error".toList
      || containsSub (lowerChars line) "fail".toList
      || containsSub (lowerChars line) "exception".toList)
  let warningLines := lines.filter (fun line =>
    containsSub (lowerChars line) "warning".toList
      || containsSub (lowerChars line) "warn".toList)
  let securityKeywords : List (List Char) :=
    ["login".toList, "auth".toList, "unauthorized".toList, "forbidden".toList,
     "attack".toList, "breach".toList]
  let securityLines := lines.filter (fun line =>
    securityKeywords.any (fun keyword => containsSub (lowerChars line) keyword))
  let securityThreats := (securityLines.take 5).map (fun line =>
    { severity := Severity.Medium
      description := .str ("Potential security event detected: ".toList
        ++ line.take 100 ++ "...".toList)
      recommendation := .str "Review this log entry for potential security implications".toList
      timestamp := .str now
      category := .str "Security Event".toList
      riskScore := 50 : SecurityThreat })
  let operationalIssues :=
    (errorLines.take 3).map (fun line =>
      { type := IssueType.Error
        description := .str ("Error detected: ".toList ++ line.take 100 ++ "...".toList)
        recommendation := .str "Investigate and resolve this error".toList
        timestamp := .str now
        category := .str "System Error".toList
        impact := .str "May affect system functionality".toList : OperationalIssue })
    ++ (warningLines.take 2).map (fun line =>
      { type := IssueType.Warning
        description := .str ("Warning detected: ".toList ++ line.take 100 ++ "...".toList)
        recommendation := .str "Monitor this warning for potential issues".toList
        timestamp := .str now
        category := .str "System Warning".toList
        impact := .str "Potential performance impact".toList : OperationalIssue })
  { summary := .str ("Fallback analysis completed. Found ".toList
      ++ natChars errorLines.length ++ " errors, ".toList
      ++ natChars warningLines.length ++ " warnings, and ".toList
      ++ natChars securityLines.length ++ " potential security events in ".toList
      ++ natChars lines.length ++ " log lines.".toList)
    securityThreats := securityThreats
    operationalIssues := operationalIssues
    totalThreats := securityThreats.length
    totalIssues := operationalIssues.length
    overallRiskLevel := calculateOverallRiskLevel securityThreats operationalIssues }

/-- Outcome of the backend AI call: a successfully extracted and parsed
JSON object, or any thrown error (network, no JSON found, parse failure). -/
inductive AiResult where
  | success (parsed : ParsedObj)
  | failure

/-- Embedding of GeminiService.analyzeLog (part_006 lines 22-41): the
try branch parses and validates; any error falls back. -/
def analyzeLog (ai : AiResult) (logContent now : List Char) : LogAnalysis :=
  match ai with
  | .success parsed => validateAndEnhanceAnalysis (parseAnalysisResponse parsed) now
  | .failure => createFallbackAnalysis logContent now

end Backend

/-- Risk-level rules exactly as the specification words them, evaluated
in order with first match winning: Critical if some threat has severity
Critical; else High if some threat has severity High, or more than 5
issues have type Error, or more than 3 threats have severity Medium;
else Medium if some threat has severity Medium, or some issue has type
Error, or the total number of issues exceeds 3; else Low. -/
def specRiskLevel (threats : List Backend.SecurityThreat)
    (issues : List Backend.OperationalIssue) : RiskLevel :=
  if ∃ t ∈ threats, t.severity = Severity.Critical then .Critical
  else if (∃ t ∈ threats, t.severity = Severity.High)
      ∨ 5 < issues.countP (fun i => i.type == IssueType.Error)
      ∨ 3 < threats.countP (fun t => t.severity == Severity.Medium) then .High
  else if (∃ t ∈ threats, t.severity = Severity.Medium)
      ∨ (∃ i ∈ issues, i.type = IssueType.Error)
      ∨ 3 < issues.length then .Medium
  else .Low

/-- A JavaScript value that represents a number for validateRiskScore:
an actual number, or a string parseInt accepts. -/
def jsNumeric : JsValue → Option Int
  | .num n => some n
  | .str s => parseIntChars s
  | _ => none

/-- One fixed clock reading used for concrete backend evaluations. -/
def now0 : List Char := "2025-01-01T00:00:00.000Z".toList

/-- A second, different clock reading. -/
def now1 : List Char := "2026-02-02T11:22:33.444Z".toList

/-- The specification scenario log: 10 lines containing ERROR and one
login failed line. -/
def demoLog : List Char :=
  joinNl (List.replicate 10 "ERROR disk quota exceeded".toList
    ++ ["login failed for user root".toList])

/-- A log with five security-keyword lines. -/
def secLog5 : List Char :=
  joinNl ["auth event A".toList, "auth event B".toList, "auth event C".toList,
    "auth event D".toList, "auth event E".toList]

/-- A log line with one error keyword, for the clock-dependence
counterexample. -/
def errLog1 : List Char := "error: disk is on fire".toList

/-- Concrete input whose normalized form has 50001 characters, so that
preprocessLogs truncates it one character into a run of whitespace. -/
def ce10 : List Char := 'a' :: ' ' :: List.replicate 49999 'a'

/-- Concrete input whose normalized form has 60620 characters: 501 lines
of 120 letters joined by newlines. -/
def bigLogs : List Char := joinNl (List.replicate 501 (List.replicate 120 'a'))

/-! Lemmas about the string primitives. -/

theorem consHead_ne_nil (c : Char) (ls : List (List Char)) : consHead c ls ≠ [] := by
  cases ls <;> simp [consHead]

theorem splitNl_ne_nil (cs : List Char) : splitNl cs ≠ [] := by
  induction cs with
  | nil => simp [splitNl]
  | cons c cs ih =>
    simp only [splitNl]
    split
    · simp
    · exact consHead_ne_nil c _

theorem joinNl_cons_cons (l l' : List Char) (ls : List (List Char)) :
    joinNl (l :: l' :: ls) = l ++ '\n' :: joinNl (l' :: ls) := rfl

theorem joinNl_splitNl (cs : List Char) : joinNl (splitNl cs) = cs := by
  induction cs with
  | nil => rfl
  | cons c cs ih =>
    by_cases hc : c = '\n'
    · subst hc
      have hsplit : splitNl ('\n' :: cs) = [] :: splitNl cs := by
        simp [splitNl]
      rw [hsplit]
      cases h : splitNl cs with
      | nil => exact absurd h (splitNl_ne_nil cs)
      | cons l ls =>
        rw [h] at ih
        rw [joinNl_cons_cons, ih]
        rfl
    · simp only [splitNl, if_neg hc]
      cases h : splitNl cs with
      | nil => exact absurd h (splitNl_ne_nil cs)
      | cons l ls =>
        rw [h] at ih
        cases ls with
        | nil =>
          simp only [joinNl] at ih
          simp [consHead, joinNl, ih]
        | cons l' ls' =>
          rw [joinNl_cons_cons] at ih
          simp only [consHead, joinNl_cons_cons, List.cons_append, ih]

theorem splitNl_append_nl (l cs : List Char) (h : '\n' ∉ l) :
    splitNl (l ++ '\n' :: cs) = l :: splitNl cs := by
  induction l with
  | nil => simp [splitNl]
  | cons a l ih =>
    have ha : ¬ a = '\n' := fun e => h (e ▸ List.mem_cons_self a l)
    have hl : '\n' ∉ l := fun m => h (List.mem_cons_of_mem a m)
    have hstep : splitNl (a :: (l ++ '\n' :: cs)) = consHead a (splitNl (l ++ '\n' :: cs)) := by
      simp only [splitNl]
      rw [if_neg ha]
    rw [List.cons_append, hstep, ih hl]
    rfl

theorem splitNl_of_no_nl (l : List Char) (h : '\n' ∉ l) : splitNl l = [l] := by
  induction l with
  | nil => rfl
  | cons a l ih =>
    have ha : ¬ a = '\n' := fun e => h (e ▸ List.mem_cons_self a l)
    have hl : '\n' ∉ l := fun m => h (List.mem_cons_of_mem a m)
    simp only [splitNl, if_neg ha, ih hl, consHead]

theorem splitNl_joinNl (ls : List (List Char)) (hne : ls ≠ [])
    (h : ∀ l ∈ ls, '\n' ∉ l) : splitNl (joinNl ls) = ls := by
  induction ls with
  | nil => exact absurd rfl hne
  | cons l ls ih =>
    cases ls with
    | nil => exact splitNl_of_no_nl l (h l (List.mem_cons_self l []))
    | cons l' ls' =>
      rw [joinNl_cons_cons,
        splitNl_append_nl l _ (h l (List.mem_cons_self l _)),
        ih (by simp) (fun x hx => h x (List.mem_cons_of_mem l hx))]

theorem mem_of_mem_splitNl {c : Char} {p : List Char} {cs : List Char}
    (hp : p ∈ splitNl cs) (hc : c ∈ p) : c ∈ cs ∧ c ≠ '\n' := by
  induction cs generalizing p with
  | nil =>
    simp only [splitNl, List.mem_singleton] at hp
    subst hp
    simp at hc
  | cons a cs ih =>
    simp only [splitNl] at hp
    by_cases ha : a = '\n'
    · rw [if_pos ha] at hp
      rcases List.mem_cons.mp hp with rfl | hp'
      · simp at hc
      · obtain ⟨h1, h2⟩ := ih hp' hc
        exact ⟨List.mem_cons_of_mem a h1, h2⟩
    · rw [if_neg ha] at hp
      cases hs : splitNl cs with
      | nil => exact absurd hs (splitNl_ne_nil cs)
      | cons q qs =>
        rw [hs] at hp
        simp only [consHead] at hp
        rcases List.mem_cons.mp hp with rfl | hp'
        · rcases List.mem_cons.mp hc with rfl | hcq
          · exact ⟨List.mem_cons_self c cs, ha⟩
          · obtain ⟨h1, h2⟩ := ih (hs ▸ List.mem_cons_self q qs) hcq
            exact ⟨List.mem_cons_of_mem a h1, h2⟩
        · obtain ⟨h1, h2⟩ := ih (hs ▸ List.mem_cons_of_mem q hp') hc
          exact ⟨List.mem_cons_of_mem a h1, h2⟩

theorem exists_splitNl_mem {c : Char} {cs : List Char} (hc : c ∈ cs)
    (hne : c ≠ '\n') : ∃ p ∈ splitNl cs, c ∈ p := by
  induction cs with
  | nil => simp at hc
  | cons a cs ih =>
    simp only [splitNl]
    by_cases ha : a = '\n'
    · rw [if_pos ha]
      rcases List.mem_cons.mp hc with rfl | h
      · exact absurd ha hne
      · obtain ⟨p, hp, hcp⟩ := ih h
        exact ⟨p, List.mem_cons_of_mem _ hp, hcp⟩
    · rw [if_neg ha]
      cases hs : splitNl cs with
      | nil => exact absurd hs (splitNl_ne_nil cs)
      | cons q qs =>
        rcases List.mem_cons.mp hc with rfl | h
        · exact ⟨c :: q, by simp [consHead], List.mem_cons_self c q⟩
        · obtain ⟨p, hp, hcp⟩ := ih h
          rw [hs] at hp
          rcases List.mem_cons.mp hp with rfl | hp'
          · exact ⟨a :: p, by simp [consHead], List.mem_cons_of_mem _ hcp⟩
          · exact ⟨p, by simp only [consHead, List.mem_cons]; right; exact hp', hcp⟩

theorem joinNl_eq_nil_iff (ls : List (List Char)) :
    joinNl ls = [] ↔ ls = [] ∨ ls = [[]] := by
  cases ls with
  | nil => simp [joinNl]
  | cons l ls =>
    cases ls with
    | nil => simp [joinNl]
    | cons l' ls' => simp [joinNl_cons_cons]

theorem joinNl_suffix_mono {ls₁ ls₂ : List (List Char)} (h : ls₁ <:+ ls₂) :
    joinNl ls₁ <:+ joinNl ls₂ := by
  obtain ⟨pre, rfl⟩ := h
  induction pre with
  | nil => exact List.suffix_refl _
  | cons a pre ih =>
    cases hp : pre ++ ls₁ with
    | nil =>
      have : ls₁ = [] := (List.append_eq_nil.mp hp).2
      subst this
      exact List.nil_suffix
    | cons q qs =>
      calc joinNl ls₁ <:+ joinNl (pre ++ ls₁) := ih
        _ <:+ joinNl (a :: (pre ++ ls₁)) := by
          rw [hp, joinNl_cons_cons]
          exact ⟨a ++ ['\n'], by simp⟩

theorem length_sliceLast {α : Type} (n : Nat) (l : List α) :
    (sliceLast n l).length = min n l.length := by
  simp only [sliceLast, List.length_drop]
  omega

theorem sliceLast_suffix {α : Type} (n : Nat) (l : List α) : sliceLast n l <:+ l :=
  List.drop_suffix _ _

theorem joinNl_length (ls : List (List Char)) (h : ls ≠ []) :
    (joinNl ls).length + 1 = (ls.map List.length).sum + ls.length := by
  induction ls with
  | nil => exact absurd rfl h
  | cons l ls ih =>
    cases ls with
    | nil => simp [joinNl]
    | cons l' ls' =>
      rw [joinNl_cons_cons]
      have := ih (by simp)
      simp only [List.length_append, List.length_cons, List.map_cons, List.sum_cons] at this ⊢
      omega

theorem sliceLast_ne_nil {α : Type} {n : Nat} {l : List α} (hn : 0 < n)
    (hl : l ≠ []) : sliceLast n l ≠ [] := by
  have hlen : 0 < l.length := List.length_pos.mpr hl
  intro he
  have h2 : (sliceLast n l).length = 0 := by rw [he]; rfl
  rw [length_sliceLast] at h2
  omega

/-! Lemmas about trimChars. -/

theorem mem_of_mem_trimChars {c : Char} {l : List Char} (h : c ∈ trimChars l) :
    c ∈ l := by
  unfold trimChars at h
  rw [List.mem_reverse] at h
  have h2 := (List.dropWhile_sublist Char.isWhitespace).subset h
  rw [List.mem_reverse] at h2
  exact (List.dropWhile_sublist Char.isWhitespace).subset h2

theorem trimChars_eq_nil_iff {l : List Char} :
    trimChars l = [] ↔ ∀ c ∈ l, c.isWhitespace := by
  unfold trimChars
  rw [List.reverse_eq_nil_iff, List.dropWhile_eq_nil_iff]
  constructor
  · intro h c hc
    have hc2 : c ∈ l.takeWhile Char.isWhitespace ++ l.dropWhile Char.isWhitespace := by
      rw [List.takeWhile_append_dropWhile Char.isWhitespace l]
      exact hc
    rcases List.mem_append.mp hc2 with h1 | h2
    · exact List.mem_takeWhile_imp h1
    · exact h c (List.mem_reverse.mpr h2)
  · intro h a ha
    exact h a ((List.dropWhile_sublist Char.isWhitespace).subset (List.mem_reverse.mp ha))

theorem dropWhile_head_false {p : Char → Bool} :
    ∀ {l : List Char} {a : Char} {as : List Char},
      l.dropWhile p = a :: as → p a = false := by
  intro l
  induction l with
  | nil =>
    intro a as h
    simp [List.dropWhile] at h
  | cons b l ih =>
    intro a as h
    by_cases hb : p b
    · rw [List.dropWhile_cons_of_pos hb] at h
      exact ih h
    · rw [List.dropWhile_cons_of_neg hb] at h
      cases h
      simpa using hb

theorem dropWhile_idem (p : Char → Bool) (l : List Char) :
    (l.dropWhile p).dropWhile p = l.dropWhile p := by
  cases h : l.dropWhile p with
  | nil => rfl
  | cons a as =>
    have ha := dropWhile_head_false h
    exact List.dropWhile_cons_of_neg (by simp [ha])

theorem dropWhile_suffix (p : Char → Bool) (l : List Char) : l.dropWhile p <:+ l := by
  induction l with
  | nil => exact List.suffix_refl _
  | cons a l ih =>
    by_cases ha : p a
    · rw [List.dropWhile_cons_of_pos ha]
      exact ih.trans (List.suffix_cons a l)
    · rw [List.dropWhile_cons_of_neg ha]

theorem trimChars_idem (l : List Char) : trimChars (trimChars l) = trimChars l := by
  have hprefix : ((l.dropWhile Char.isWhitespace).reverse.dropWhile Char.isWhitespace).reverse
      <+: l.dropWhile Char.isWhitespace := by
    have h2 := List.reverse_prefix.mpr
      (dropWhile_suffix Char.isWhitespace (l.dropWhile Char.isWhitespace).reverse)
    rwa [List.reverse_reverse] at h2
  have hstep1 : (trimChars l).dropWhile Char.isWhitespace = trimChars l := by
    cases hBr : trimChars l with
    | nil => rfl
    | cons c ts =>
      obtain ⟨r, hr⟩ := hprefix
      have hr' : trimChars l ++ r = l.dropWhile Char.isWhitespace := hr
      rw [hBr] at hr'
      have hAc : l.dropWhile Char.isWhitespace = c :: (ts ++ r) := by
        rw [← hr']
        rfl
      have hwc := dropWhile_head_false hAc
      exact List.dropWhile_cons_of_neg (by simp [hwc])
  show (((trimChars l).dropWhile Char.isWhitespace).reverse.dropWhile Char.isWhitespace).reverse
      = trimChars l
  rw [hstep1]
  have hrev : (trimChars l).reverse
      = (l.dropWhile Char.isWhitespace).reverse.dropWhile Char.isWhitespace := by
    show ((((l.dropWhile Char.isWhitespace).reverse.dropWhile
      Char.isWhitespace)).reverse).reverse = _
    rw [List.reverse_reverse]
  rw [hrev, dropWhile_idem]
  rfl

theorem exists_nonws_of_trim_ne_nil {s : List Char} (h : trimChars s ≠ []) :
    ∃ c ∈ s, ¬ c.isWhitespace := by
  by_contra hc
  push_neg at hc
  exact h (trimChars_eq_nil_iff.mpr (by simpa using hc))

/-! Lemmas about normalizeLogs and preprocessLogs. -/

theorem keptLines_good {logs : List Char} :
    ∀ p ∈ Frontend.keptLines logs, p ≠ [] ∧ '\n' ∉ p ∧ trimChars p = p := by
  intro p hp
  unfold Frontend.keptLines at hp
  obtain ⟨hp1, hp2⟩ := List.mem_filter.mp hp
  obtain ⟨q, hq, rfl⟩ := List.mem_map.mp hp1
  refine ⟨?_, ?_, trimChars_idem q⟩
  · exact List.length_pos.mp (of_decide_eq_true hp2)
  · intro hmem
    exact (mem_of_mem_splitNl hq (mem_of_mem_trimChars hmem)).2 rfl

theorem keptLines_joinNl (ls : List (List Char)) (hne : ls ≠ [])
    (hgood : ∀ l ∈ ls, l ≠ [] ∧ '\n' ∉ l ∧ trimChars l = l) :
    Frontend.keptLines (joinNl ls) = ls := by
  unfold Frontend.keptLines
  rw [splitNl_joinNl ls hne (fun l hl => (hgood l hl).2.1)]
  have hmap : ls.map trimChars = ls := by
    conv_rhs => rw [← List.map_id ls]
    exact List.map_congr_left (fun l hl => (hgood l hl).2.2)
  rw [hmap]
  exact List.filter_eq_self.mpr
    (fun l hl => decide_eq_true (List.length_pos.mpr (hgood l hl).1))

theorem normalizeLogs_idem (s : List Char) :
    Frontend.normalizeLogs (Frontend.normalizeLogs s) = Frontend.normalizeLogs s := by
  unfold Frontend.normalizeLogs
  cases hk : Frontend.keptLines s with
  | nil => rfl
  | cons l ls =>
    rw [keptLines_joinNl (l :: ls) (by simp)
      (fun p hp => keptLines_good p (hk ▸ hp))]

theorem normalizeLogs_ne_nil {s : List Char} (h : ∃ c ∈ s, ¬ c.isWhitespace) :
    Frontend.normalizeLogs s ≠ [] := by
  obtain ⟨c, hc, hcw⟩ := h
  have hcn : c ≠ '\n' := fun e => hcw (by rw [e]; rfl)
  obtain ⟨p, hp, hcp⟩ := exists_splitNl_mem hc hcn
  have htp : trimChars p ≠ [] := fun he => hcw (trimChars_eq_nil_iff.mp he c hcp)
  have hmem : trimChars p ∈ Frontend.keptLines s := by
    unfold Frontend.keptLines
    exact List.mem_filter.mpr ⟨List.mem_map_of_mem trimChars hp,
      decide_eq_true (List.length_pos.mpr htp)⟩
  intro he
  unfold Frontend.normalizeLogs at he
  rcases (joinNl_eq_nil_iff _).mp he with h1 | h1
  · rw [h1] at hmem
    simp at hmem
  · rw [h1] at hmem
    exact htp (List.mem_singleton.mp hmem)

theorem sliceLast_subset {α : Type} (n : Nat) (l : List α) : sliceLast n l ⊆ l :=
  List.drop_subset _ l

theorem preprocessLogs_of_le {s : List Char}
    (h : (Frontend.normalizeLogs s).length ≤ Frontend.MAX_LOG_SIZE) :
    Frontend.preprocessLogs s = Frontend.normalizeLogs s := by
  simp only [Frontend.preprocessLogs]
  rw [if_neg (by omega)]

theorem preprocessLogs_of_gt {s : List Char}
    (h : Frontend.MAX_LOG_SIZE < (Frontend.normalizeLogs s).length) :
    Frontend.preprocessLogs s =
      sliceLast Frontend.MAX_LOG_SIZE
        (joinNl (sliceLast (Frontend.MAX_LOG_SIZE / 100)
          (splitNl (Frontend.normalizeLogs s)))) := by
  simp only [Frontend.preprocessLogs]
  rw [if_pos h]

theorem preprocessLogs_suffix (s : List Char) :
    Frontend.preprocessLogs s <:+ Frontend.normalizeLogs s := by
  by_cases h : Frontend.MAX_LOG_SIZE < (Frontend.normalizeLogs s).length
  · rw [preprocessLogs_of_gt h]
    have h1 : joinNl (sliceLast (Frontend.MAX_LOG_SIZE / 100)
        (splitNl (Frontend.normalizeLogs s))) <:+ Frontend.normalizeLogs s := by
      have h2 := joinNl_suffix_mono (sliceLast_suffix (Frontend.MAX_LOG_SIZE / 100)
        (splitNl (Frontend.normalizeLogs s)))
      rwa [joinNl_splitNl (Frontend.normalizeLogs s)] at h2
    exact (sliceLast_suffix _ _).trans h1
  · rw [preprocessLogs_of_le (by omega)]

theorem keptLines_ne_nil_of_normalize {s : List Char}
    (hn : Frontend.normalizeLogs s ≠ []) : Frontend.keptLines s ≠ [] := by
  intro he
  apply hn
  unfold Frontend.normalizeLogs
  rw [he]
  rfl

theorem splitNl_normalizeLogs {s : List Char} (hn : Frontend.normalizeLogs s ≠ []) :
    splitNl (Frontend.normalizeLogs s) = Frontend.keptLines s := by
  unfold Frontend.normalizeLogs
  exact splitNl_joinNl _ (keptLines_ne_nil_of_normalize hn)
    (fun l hl => (keptLines_good l hl).2.1)

theorem preprocessLogs_ne_nil {s : List Char} (h : trimChars s ≠ []) :
    Frontend.preprocessLogs s ≠ [] := by
  have hn : Frontend.normalizeLogs s ≠ [] :=
    normalizeLogs_ne_nil (exists_nonws_of_trim_ne_nil h)
  by_cases hlen : Frontend.MAX_LOG_SIZE < (Frontend.normalizeLogs s).length
  · rw [preprocessLogs_of_gt hlen]
    have hkept := keptLines_ne_nil_of_normalize hn
    have hsplit := splitNl_normalizeLogs hn
    have hsl : sliceLast (Frontend.MAX_LOG_SIZE / 100)
        (splitNl (Frontend.normalizeLogs s)) ≠ [] := by
      rw [hsplit]
      exact sliceLast_ne_nil (by decide) hkept
    have hjoin : joinNl (sliceLast (Frontend.MAX_LOG_SIZE / 100)
        (splitNl (Frontend.normalizeLogs s))) ≠ [] := by
      intro he
      rcases (joinNl_eq_nil_iff _).mp he with h1 | h1
      · exact hsl h1
      · have hmem : ([] : List Char) ∈ sliceLast (Frontend.MAX_LOG_SIZE / 100)
            (splitNl (Frontend.normalizeLogs s)) := by
          rw [h1]
          exact List.mem_singleton.mpr rfl
        rw [hsplit] at hmem
        exact (keptLines_good _ (sliceLast_subset _ _ hmem)).1 rfl
    exact sliceLast_ne_nil (by decide) hjoin
  · rw [preprocessLogs_of_le (by omega)]
    exact hn

theorem loopGo_zero (invoker : Nat → Frontend.AttemptOutcome) (attempt : Nat)
    (delays : List Nat) (lastErr : Option (List Char)) :
    Frontend.loopGo invoker attempt 0 delays lastErr
      = .exhausted (attempt - 1) delays lastErr := by
  rw [Frontend.loopGo]

theorem loopGo_succ (invoker : Nat → Frontend.AttemptOutcome) (attempt r : Nat)
    (delays : List Nat) (lastErr : Option (List Char)) :
    Frontend.loopGo invoker attempt (r + 1) delays lastErr
      = match invoker attempt with
        | .success res => .success attempt delays res
        | .failure m =>
          if r = 0 then .exhausted attempt delays (some m)
          else Frontend.loopGo invoker (attempt + 1) r
            (delays ++ [1000 * attempt]) (some m) := by
  rw [Frontend.loopGo]

theorem calculateOverallRiskLevel_critical_of_mem
    {threats : List Backend.SecurityThreat} {issues : List Backend.OperationalIssue}
    (h : ∃ t ∈ threats, t.severity = Severity.Critical) :
    Backend.calculateOverallRiskLevel threats issues = RiskLevel.Critical := by
  obtain ⟨t, ht, hsev⟩ := h
  unfold Backend.calculateOverallRiskLevel
  rw [if_pos (List.any_eq_true.mpr ⟨t, ht, by simp [hsev]⟩)]

/-- C2: the risk-level classifier calculateOverallRiskLevel always
returns one of the four levels, and agrees with the specification rules
evaluated in order with first match winning (specRiskLevel): Critical if
some threat has severity Critical; else High if some threat has severity
High, or more than 5 issues have type Error, or more than 3 threats have
severity Medium; else Medium if some threat has severity Medium, or some
issue has type Error, or the number of issues exceeds 3; else Low. -/
theorem calculateOverallRiskLevel_matches_spec
    (threats : List Backend.SecurityThreat) (issues : List Backend.OperationalIssue) :
    Backend.calculateOverallRiskLevel threats issues = specRiskLevel threats issues
    ∧ (Backend.calculateOverallRiskLevel threats issues = RiskLevel.Critical
      ∨ Backend.calculateOverallRiskLevel threats issues = RiskLevel.High
      ∨ Backend.calculateOverallRiskLevel threats issues = RiskLevel.Medium
      ∨ Backend.calculateOverallRiskLevel threats issues = RiskLevel.Low) := by
  constructor
  · simp only [Backend.calculateOverallRiskLevel, specRiskLevel]
    apply if_congr ?h1 rfl (if_congr ?h2 rfl (if_congr ?h3 rfl rfl))
    case h1 => simp
    case h2 =>
      rw [← List.countP_eq_length_filter, ← List.countP_eq_length_filter,
        ← List.countP_eq_length_filter]
      simp [List.countP_pos_iff]
    case h3 =>
      rw [← List.countP_eq_length_filter, ← List.countP_eq_length_filter]
      simp [List.countP_pos_iff]
  · cases hres : Backend.calculateOverallRiskLevel threats issues <;> simp

/-- C3: both the validated AI-path result and the backend fallback result
carry totalThreats and totalIssues equal to the lengths of their threat and
issue sequences, and the validated result does not depend on whatever
totals the upstream AI response supplied. -/
theorem totals_always_recomputed (raw : Backend.RawAnalysis) (now : List Char)
    (t i : JsValue) (logs : List Char) :
    ((Backend.validateAndEnhanceAnalysis raw now).totalThreats
      = (Backend.validateAndEnhanceAnalysis raw now).securityThreats.length)
    ∧ ((Backend.validateAndEnhanceAnalysis raw now).totalIssues
      = (Backend.validateAndEnhanceAnalysis raw now).operationalIssues.length)
    ∧ (Backend.validateAndEnhanceAnalysis
        { raw with totalThreats := t, totalIssues := i } now
      = Backend.validateAndEnhanceAnalysis raw now)
    ∧ ((Backend.createFallbackAnalysis logs now).totalThreats
      = (Backend.createFallbackAnalysis logs now).securityThreats.length)
    ∧ ((Backend.createFallbackAnalysis logs now).totalIssues
      = (Backend.createFallbackAnalysis logs now).operationalIssues.length) :=
  ⟨rfl, rfl, rfl, rfl, rfl⟩

/-- C4: whenever the parsed securityThreats of the AI response contain a
threat whose severity is the string Critical, the validated result's
overallRiskLevel is Critical, regardless of the overallRiskLevel field
the model itself supplied. -/
theorem critical_severity_forces_critical_level
    (parsed : Backend.ParsedObj) (now : List Char) (lvl : JsValue)
    (h : ∃ t ∈ (Backend.parseAnalysisResponse parsed).securityThreats,
      t.severity = JsValue.str "Critical".toList) :
    (Backend.validateAndEnhanceAnalysis
      (Backend.parseAnalysisResponse { parsed with overallRiskLevel := lvl })
      now).overallRiskLevel = RiskLevel.Critical := by
  obtain ⟨t, ht, hsev⟩ := h
  simp only [Backend.validateAndEnhanceAnalysis]
  apply calculateOverallRiskLevel_critical_of_mem
  refine ⟨_, List.mem_map_of_mem _ ht, ?_⟩
  show Backend.validateSeverity t.severity = Severity.Critical
  rw [hsev]
  decide

/-- Witness for C4 at a concrete parsed response with one Critical threat
and a model-supplied risk level of Low. -/
theorem critical_severity_forces_critical_level_witness :
    (Backend.validateAndEnhanceAnalysis
      (Backend.parseAnalysisResponse
        { summary := .undefined
          securityThreats := some
            [{ severity := .str "Critical".toList, description := .undefined,
               recommendation := .undefined, timestamp := .undefined,
               category := .undefined, riskScore := .undefined }]
          operationalIssues := some []
          totalThreats := .undefined
          totalIssues := .undefined
          overallRiskLevel := .str "Low".toList })
      now0).overallRiskLevel = RiskLevel.Critical :=
  critical_severity_forces_critical_level
    { summary := .undefined
      securityThreats := some
        [{ severity := .str "Critical".toList, description := .undefined,
           recommendation := .undefined, timestamp := .undefined,
           category := .undefined, riskScore := .undefined }]
      operationalIssues := some []
      totalThreats := .undefined
      totalIssues := .undefined
      overallRiskLevel := .undefined }
    now0 (.str "Low".toList) (by decide)

/-- C9: validateRiskScore always lands in the interval from 0 to 100,
clamps numeric input to that interval, and returns 0 on non-numeric
input. -/
theorem validateRiskScore_clamped (v : JsValue) :
    0 ≤ Backend.validateRiskScore v
    ∧ Backend.validateRiskScore v ≤ 100
    ∧ (jsNumeric v = none → Backend.validateRiskScore v = 0)
    ∧ (∀ n : Int, jsNumeric v = some n
        → Backend.validateRiskScore v = max 0 (min 100 n)) := by
  have h1 : ∀ m : Int, 0 ≤ max 0 (min 100 m) := fun m => le_max_left 0 _
  have h2 : ∀ m : Int, max 0 (min 100 m) ≤ 100 :=
    fun m => max_le (by norm_num) (min_le_left _ _)
  rcases v with _ | _ | b | n | s | _
  case undefined =>
    exact ⟨by decide, by decide, fun _ => by decide, fun m hm => by simp [jsNumeric] at hm⟩
  case null =>
    exact ⟨by decide, by decide, fun _ => by decide, fun m hm => by simp [jsNumeric] at hm⟩
  case bool =>
    cases b <;>
      exact ⟨by decide, by decide, fun _ => by decide, fun m hm => by simp [jsNumeric] at hm⟩
  case num =>
    have hv : Backend.validateRiskScore (.num n) = max 0 (min 100 n) := rfl
    refine ⟨hv ▸ h1 n, hv ▸ h2 n, fun hn => by simp [jsNumeric] at hn, fun m hm => ?_⟩
    simp only [jsNumeric, Option.some.injEq] at hm
    subst hm
    exact hv
  case str =>
    cases hp : parseIntChars s with
    | none =>
      have hv : Backend.validateRiskScore (.str s) = 0 := by
        simp [Backend.validateRiskScore, hp]
      refine ⟨by rw [hv], by rw [hv]; norm_num, fun _ => hv, fun m hm => ?_⟩
      simp [jsNumeric, hp] at hm
    | some k =>
      have hv : Backend.validateRiskScore (.str s) = max 0 (min 100 k) := by
        simp [Backend.validateRiskScore, hp]
      refine ⟨hv ▸ h1 k, hv ▸ h2 k, fun hn => by simp [jsNumeric, hp] at hn,
        fun m hm => ?_⟩
      simp only [jsNumeric, hp, Option.some.injEq] at hm
      subst hm
      exact hv
  case obj =>
    exact ⟨by decide, by decide, fun _ => by decide, fun m hm => by simp [jsNumeric] at hm⟩

/-- Witness for C9 at the concrete numeric input 250, clamped to 100. -/
theorem validateRiskScore_clamped_witness :
    Backend.validateRiskScore (.num 250) = max 0 (min 100 250) :=
  (validateRiskScore_clamped (.num 250)).2.2.2 250 rfl

/-- C1: analyzeLogs rejects empty or whitespace-only input with the
empty-input error, making no attempt, and on every other input (for any
invoker behaviour at all) returns a LogAnalysis value: no timeout,
transport, or parse error ever reaches the caller. -/
theorem analyzeLogs_public_contract (invoker : Nat → Frontend.AttemptOutcome)
    (logs : List Char) :
    ((trimChars logs).length = 0 →
      Frontend.analyzeLogs invoker logs
        = { attempts := 0, delays := []
            outcome := .error "Log content cannot be empty".toList })
    ∧ ((trimChars logs).length ≠ 0 →
      ∃ result, (Frontend.analyzeLogs invoker logs).outcome = .ok result) := by
  constructor
  · intro h
    unfold Frontend.analyzeLogs
    rw [if_pos h]
  · intro h
    have hne : trimChars logs ≠ [] := fun he => h (by rw [he]; rfl)
    have hzero : ¬ (Frontend.preprocessLogs logs).length = 0 :=
      fun he => preprocessLogs_ne_nil hne (List.length_eq_zero.mp he)
    cases hl : Frontend.loopGo invoker 1 Frontend.MAX_RETRIES [] none with
    | success a d r =>
      exact ⟨r, by simp [Frontend.analyzeLogs, h, hzero, hl]⟩
    | exhausted a d e =>
      exact ⟨Frontend.createFallbackAnalysis (Frontend.preprocessLogs logs) e,
        by simp [Frontend.analyzeLogs, h, hzero, hl]⟩

/-- Witness for C1: whitespace-only input is rejected with no attempt
made, and a one-line log under an always-failing invoker still gets an
ok result. -/
theorem analyzeLogs_public_contract_witness :
    (Frontend.analyzeLogs (fun _ => .failure "boom".toList) "  \n ".toList
      = { attempts := 0, delays := []
          outcome := .error "Log content cannot be empty".toList })
    ∧ ∃ result,
      (Frontend.analyzeLogs (fun _ => .failure "boom".toList)
        "ok line".toList).outcome = .ok result :=
  ⟨(analyzeLogs_public_contract (fun _ => .failure "boom".toList) "  \n ".toList).1
      (by decide),
   (analyzeLogs_public_contract (fun _ => .failure "boom".toList) "ok line".toList).2
      (by decide)⟩

/-- C5: with an invoker that fails on every attempt, analyzeLogs makes
exactly 2 attempts (the configured maximum), sleeps 1000 * 1
milliseconds between the two consecutive attempts, makes no further
attempt, and returns the fallback result built from the preprocessed
logs and the last attempt's error; the fallback summary text begins with
the words Fallback analysis. -/
theorem analyzeLogs_all_attempts_fail (invoker : Nat → Frontend.AttemptOutcome)
    (msg : Nat → List Char) (hf : ∀ i, invoker i = .failure (msg i))
    (logs : List Char) (hne0 : (trimChars logs).length ≠ 0) :
    (Frontend.analyzeLogs invoker logs).attempts = 2
    ∧ (Frontend.analyzeLogs invoker logs).delays = [1000 * 1]
    ∧ (Frontend.analyzeLogs invoker logs).outcome
      = .ok (Frontend.createFallbackAnalysis (Frontend.preprocessLogs logs)
          (some (msg 2)))
    ∧ (Frontend.createFallbackAnalysis (Frontend.preprocessLogs logs)
        (some (msg 2))).summary.take 17 = "Fallback analysis".toList := by
  have hne : trimChars logs ≠ [] := fun he => hne0 (by rw [he]; rfl)
  have hzero : ¬ (Frontend.preprocessLogs logs).length = 0 :=
    fun he => preprocessLogs_ne_nil hne (List.length_eq_zero.mp he)
  have e2 : Frontend.loopGo invoker 2 (0 + 1) [1000 * 1] (some (msg 1))
      = .exhausted 2 [1000 * 1] (some (msg 2)) := by
    rw [loopGo_succ, hf 2]
    show (if (0 : Nat) = 0
        then Frontend.LoopResult.exhausted 2 [1000 * 1] (some (msg 2))
        else _) = _
    rw [if_pos rfl]
  have e1 : Frontend.loopGo invoker 1 (1 + 1) [] none
      = .exhausted 2 [1000 * 1] (some (msg 2)) := by
    rw [loopGo_succ, hf 1]
    show (if (1 : Nat) = 0 then _
        else Frontend.loopGo invoker (1 + 1) 1 ([] ++ [1000 * 1]) (some (msg 1))) = _
    rw [if_neg (by decide)]
    exact e2
  have hloop : Frontend.loopGo invoker 1 Frontend.MAX_RETRIES [] none
      = .exhausted 2 [1000 * 1] (some (msg 2)) := e1
  have Hout : Frontend.analyzeLogs invoker logs
      = { attempts := 2, delays := [1000 * 1]
          outcome := .ok (Frontend.createFallbackAnalysis
            (Frontend.preprocessLogs logs) (some (msg 2))) } := by
    simp [Frontend.analyzeLogs, hne0, hzero, hloop]
  refine ⟨by rw [Hout], by rw [Hout], by rw [Hout], ?_⟩
  simp only [Frontend.createFallbackAnalysis, List.append_assoc]
  rw [List.take_append_of_le_length (by decide)]
  decide

/-- Witness for C5 at a concrete log and an invoker that always reports
a timeout. -/
theorem analyzeLogs_all_attempts_fail_witness :
    (Frontend.analyzeLogs (fun _ => .failure "Request timed out".toList)
      "error: x".toList).attempts = 2
    ∧ (Frontend.analyzeLogs (fun _ => .failure "Request timed out".toList)
      "error: x".toList).delays = [1000 * 1]
    ∧ (Frontend.analyzeLogs (fun _ => .failure "Request timed out".toList)
      "error: x".toList).outcome
      = .ok (Frontend.createFallbackAnalysis
          (Frontend.preprocessLogs "error: x".toList)
          (some "Request timed out".toList))
    ∧ (Frontend.createFallbackAnalysis (Frontend.preprocessLogs "error: x".toList)
        (some "Request timed out".toList)).summary.take 17
      = "Fallback analysis".toList :=
  analyzeLogs_all_attempts_fail (fun _ => .failure "Request timed out".toList)
    (fun _ => "Request timed out".toList) (fun _ => rfl)
    "error: x".toList (by decide)

/-- C6: preprocessLogs first normalizes the input (split into lines, trim
each, drop empties, rejoin with single newlines); a normalized text within
the 50000 character limit is returned unchanged, and one that exceeds the
limit is truncated to at most the limit, keeping a suffix (the most
recent tail) of the normalized text. -/
theorem preprocessLogs_normalizes_and_truncates (logs : List Char) :
    ((Frontend.normalizeLogs logs).length ≤ Frontend.MAX_LOG_SIZE →
      Frontend.preprocessLogs logs = Frontend.normalizeLogs logs)
    ∧ (Frontend.MAX_LOG_SIZE < (Frontend.normalizeLogs logs).length →
      (Frontend.preprocessLogs logs).length ≤ Frontend.MAX_LOG_SIZE
      ∧ Frontend.preprocessLogs logs <:+ Frontend.normalizeLogs logs) := by
  refine ⟨fun h => preprocessLogs_of_le h, fun h => ⟨?_, preprocessLogs_suffix logs⟩⟩
  rw [preprocessLogs_of_gt h, length_sliceLast]
  exact Nat.min_le_left _ _

theorem dropWhile_ws_replicate (n : Nat) (c : Char) (hc : ¬ c.isWhitespace) :
    List.dropWhile Char.isWhitespace (List.replicate n c) = List.replicate n c := by
  cases n with
  | zero => rfl
  | succ n =>
    rw [List.replicate_succ]
    exact List.dropWhile_cons_of_neg (by simpa using hc)

theorem trimChars_replicate (n : Nat) (c : Char) (hc : ¬ c.isWhitespace) :
    trimChars (List.replicate n c) = List.replicate n c := by
  unfold trimChars
  rw [dropWhile_ws_replicate n c hc, List.reverse_replicate,
    dropWhile_ws_replicate n c hc, List.reverse_replicate]

theorem bigLogs_normalize : Frontend.normalizeLogs bigLogs = bigLogs := by
  have hgood : ∀ l ∈ List.replicate 501 (List.replicate 120 'a'),
      l ≠ [] ∧ '\n' ∉ l ∧ trimChars l = l := by
    intro l hl
    rw [List.eq_of_mem_replicate hl]
    refine ⟨List.ne_nil_of_length_pos (by rw [List.length_replicate]; decide),
      ?_, trimChars_replicate 120 'a' (by decide)⟩
    intro hmem
    exact absurd (List.eq_of_mem_replicate hmem) (by decide)
  show joinNl (Frontend.keptLines (joinNl (List.replicate 501 (List.replicate 120 'a'))))
      = bigLogs
  rw [keptLines_joinNl _
    (List.ne_nil_of_length_pos (by rw [List.length_replicate]; decide)) hgood]
  rfl

theorem bigLogs_normalize_length :
    Frontend.MAX_LOG_SIZE < (Frontend.normalizeLogs bigLogs).length := by
  rw [bigLogs_normalize]
  have h := joinNl_length (List.replicate 501 (List.replicate 120 'a'))
    (List.ne_nil_of_length_pos (by rw [List.length_replicate]; decide))
  simp only [List.map_replicate, List.length_replicate, List.sum_replicate,
    smul_eq_mul] at h
  show 50000 < (joinNl (List.replicate 501 (List.replicate 120 'a'))).length
  omega

set_option maxRecDepth 100000 in
/-- Witness for C6: a small log is returned normalized and unchanged,
and a 60620-character normalized log is truncated to a suffix of at most
50000 characters. -/
theorem preprocessLogs_normalizes_and_truncates_witness :
    Frontend.preprocessLogs demoLog = Frontend.normalizeLogs demoLog
    ∧ (Frontend.preprocessLogs bigLogs).length ≤ Frontend.MAX_LOG_SIZE
    ∧ Frontend.preprocessLogs bigLogs <:+ Frontend.normalizeLogs bigLogs :=
  ⟨(preprocessLogs_normalizes_and_truncates demoLog).1 (by decide),
   ((preprocessLogs_normalizes_and_truncates bigLogs).2 bigLogs_normalize_length).1,
   ((preprocessLogs_normalizes_and_truncates bigLogs).2 bigLogs_normalize_length).2⟩

theorem ce10_no_nl : '\n' ∉ ce10 := by
  intro h
  rw [show ce10 = 'a' :: ' ' :: List.replicate 49999 'a' from rfl] at h
  rcases List.mem_cons.mp h with h | h
  · exact absurd h (by decide)
  rcases List.mem_cons.mp h with h | h
  · exact absurd h (by decide)
  · exact absurd (List.eq_of_mem_replicate h) (by decide)

theorem ce10_length : ce10.length = 50001 := by
  show ('a' :: ' ' :: List.replicate 49999 'a').length = 50001
  rw [List.length_cons, List.length_cons, List.length_replicate]

theorem ce10_trim : trimChars ce10 = ce10 := by
  have hrev : ce10.reverse = 'a' :: (List.replicate 49998 'a' ++ [' ', 'a']) := by
    show ('a' :: ' ' :: List.replicate 49999 'a').reverse = _
    rw [List.reverse_cons, List.reverse_cons, List.reverse_replicate,
      show (49999 : Nat) = 49998 + 1 from rfl, List.replicate_succ,
      List.cons_append, List.cons_append, List.append_assoc]
    rfl
  have h1 : List.dropWhile Char.isWhitespace ce10 = ce10 := by
    show List.dropWhile Char.isWhitespace ('a' :: ' ' :: List.replicate 49999 'a') = _
    exact List.dropWhile_cons_of_neg (by decide)
  unfold trimChars
  rw [h1, hrev, List.dropWhile_cons_of_neg (by decide), ← hrev, List.reverse_reverse]

theorem ce10_normalize : Frontend.normalizeLogs ce10 = ce10 := by
  unfold Frontend.normalizeLogs Frontend.keptLines
  rw [splitNl_of_no_nl _ ce10_no_nl, List.map_singleton, ce10_trim]
  have hcond : decide (0 < ce10.length) = true := by
    rw [ce10_length]
    rfl
  rw [List.filter_eq_self.mpr
    (fun a ha => by rw [List.mem_singleton.mp ha]; exact hcond)]
  rfl

theorem ce10_preprocess : Frontend.preprocessLogs ce10 = ' ' :: List.replicate 49999 'a' := by
  have hgt : Frontend.MAX_LOG_SIZE < (Frontend.normalizeLogs ce10).length := by
    rw [ce10_normalize, ce10_length]
    decide
  rw [preprocessLogs_of_gt hgt, ce10_normalize, splitNl_of_no_nl _ ce10_no_nl]
  show sliceLast 50000 (joinNl (sliceLast 500 [ce10])) = _
  have hs1 : sliceLast 500 [ce10] = [ce10] := by
    show [ce10].drop ([ce10].length - 500) = [ce10]
    rw [List.length_singleton]
    rfl
  rw [hs1]
  show sliceLast 50000 ce10 = _
  simp only [sliceLast, ce10_length]
  show ce10.drop 1 = ' ' :: List.replicate 49999 'a'
  rfl

theorem tail_trim : trimChars (' ' :: List.replicate 49999 'a')
    = List.replicate 49999 'a' := by
  have h1 : List.dropWhile Char.isWhitespace (' ' :: List.replicate 49999 'a')
      = List.replicate 49999 'a' := by
    rw [List.dropWhile_cons_of_pos (by decide)]
    exact dropWhile_ws_replicate 49999 'a' (by decide)
  unfold trimChars
  rw [h1, List.reverse_replicate, dropWhile_ws_replicate 49999 'a' (by decide),
    List.reverse_replicate]

theorem tail_no_nl : '\n' ∉ (' ' :: List.replicate 49999 'a') := by
  intro h
  simp only [List.mem_cons, List.mem_replicate] at h
  rcases h with h | h
  · exact absurd h (by decide)
  · exact absurd h.2 (by decide)

theorem tail_preprocess : Frontend.preprocessLogs (' ' :: List.replicate 49999 'a')
    = List.replicate 49999 'a' := by
  have hnorm : Frontend.normalizeLogs (' ' :: List.replicate 49999 'a')
      = List.replicate 49999 'a' := by
    unfold Frontend.normalizeLogs Frontend.keptLines
    rw [splitNl_of_no_nl _ tail_no_nl, List.map_singleton, tail_trim]
    have hcond : decide (0 < (List.replicate 49999 'a').length) = true := by
      rw [List.length_replicate]
      rfl
    rw [List.filter_eq_self.mpr
      (fun a ha => by rw [List.mem_singleton.mp ha]; exact hcond)]
    rfl
  rw [preprocessLogs_of_le (by rw [hnorm, List.length_replicate]; decide), hnorm]

/-- Counterexample for C10: on an input of 50001 characters whose
truncation point lands on a space, applying preprocessLogs twice trims
one more character than applying it once. -/
theorem preprocessLogs_not_idempotent :
    Frontend.preprocessLogs (Frontend.preprocessLogs ce10)
      ≠ Frontend.preprocessLogs ce10 := by
  rw [ce10_preprocess, tail_preprocess]
  intro he
  have hlen := congrArg List.length he
  rw [List.length_replicate, List.length_cons, List.length_replicate] at hlen
  omega

/-- C10 amended: preprocessLogs is idempotent on every input whose
normalized text is within the 50000-character limit, i.e. whenever no
truncation happens; a truncated output can start with whitespace or an
empty line, which a second application would trim again. -/
theorem preprocessLogs_idempotent_no_truncation (s : List Char)
    (h : (Frontend.normalizeLogs s).length ≤ Frontend.MAX_LOG_SIZE) :
    Frontend.preprocessLogs (Frontend.preprocessLogs s)
      = Frontend.preprocessLogs s := by
  rw [preprocessLogs_of_le h]
  have h2 := normalizeLogs_idem s
  rw [preprocessLogs_of_le (by rw [h2]; exact h), h2]

set_option maxRecDepth 100000 in
/-- Witness for C10 at a small concrete log. -/
theorem preprocessLogs_idempotent_no_truncation_witness :
    Frontend.preprocessLogs (Frontend.preprocessLogs demoLog)
      = Frontend.preprocessLogs demoLog :=
  preprocessLogs_idempotent_no_truncation demoLog (by decide)

set_option maxRecDepth 100000 in
/-- C7 amended: the frontend fallback analyzer turns at most the first 3
error-keyword lines into Error issues, at most the first 2 warning-keyword
lines into Warning issues, and at most the first 3 security-keyword lines
into threats of severity Medium with timestamp N/A, a fixed
recommendation, and a description embedding the first 100 characters of
the triggering line; on the scenario log with 10 ERROR lines and one
login failed line it yields exactly min(10,3) = 3 Error issues and 1
security threat, and the backend fallback on that log computes
overallRiskLevel Medium (at least Medium).  The backend variant caps
security lines at 5 and stamps entries with the invocation time instead
of N/A (see the counterexample). -/
theorem fallback_analyzer_caps (logs : List Char) (err : Option (List Char)) :
    ((Frontend.createFallbackAnalysis logs err).operationalIssues.countP
        (fun i => i.type == IssueType.Error)
      = min 3 (Frontend.errorLinesOf logs).length)
    ∧ ((Frontend.createFallbackAnalysis logs err).operationalIssues.countP
        (fun i => i.type == IssueType.Warning)
      = min 2 (Frontend.warningLinesOf logs).length)
    ∧ ((Frontend.createFallbackAnalysis logs err).securityThreats.length
      = min 3 (Frontend.securityLinesOf logs).length)
    ∧ (∀ t ∈ (Frontend.createFallbackAnalysis logs err).securityThreats,
        t.severity = Severity.Medium
        ∧ t.timestamp = "N/A".toList
        ∧ t.recommendation
            = "Review this log entry for security implications".toList
        ∧ ∃ line ∈ Frontend.securityLinesOf logs,
            t.description = "Potential security event: ".toList
              ++ line.take 100 ++ "...".toList)
    ∧ ((Frontend.createFallbackAnalysis demoLog none).operationalIssues.countP
        (fun i => i.type == IssueType.Error) = 3)
    ∧ ((Frontend.createFallbackAnalysis demoLog none).securityThreats.length = 1)
    ∧ ((Backend.createFallbackAnalysis demoLog now0).overallRiskLevel
      = RiskLevel.Medium) := by
  refine ⟨?_, ?_, ?_, ?_, by decide, by decide, by decide⟩
  · simp only [Frontend.createFallbackAnalysis]
    rw [List.countP_append, List.countP_map, List.countP_map]
    simp [Function.comp_def, List.length_take]
  · simp only [Frontend.createFallbackAnalysis]
    rw [List.countP_append, List.countP_map, List.countP_map]
    simp [Function.comp_def, List.length_take]
  · simp only [Frontend.createFallbackAnalysis]
    rw [List.length_map, List.length_take]
  · intro t ht
    simp only [Frontend.createFallbackAnalysis] at ht
    obtain ⟨line, hline, rfl⟩ := List.mem_map.mp ht
    exact ⟨rfl, rfl, rfl, line, List.take_subset 3 _ hline, rfl⟩

set_option maxRecDepth 100000 in
/-- Witness for C7 at the scenario log: the Error-issue count law at the
concrete input, and the per-threat facts applied to the concrete threat
generated by the login failed line. -/
theorem fallback_analyzer_caps_witness :
    ((Frontend.createFallbackAnalysis demoLog none).operationalIssues.countP
        (fun i => i.type == IssueType.Error)
      = min 3 (Frontend.errorLinesOf demoLog).length)
    ∧ ({ severity := Severity.Medium
         description :=
           "Potential security event: login failed for user root...".toList
         recommendation :=
           "Review this log entry for security implications".toList
         timestamp := "N/A".toList : Frontend.SecurityThreat }.severity
        = Severity.Medium
      ∧ ({ severity := Severity.Medium
           description :=
             "Potential security event: login failed for user root...".toList
           recommendation :=
             "Review this log entry for security implications".toList
           timestamp := "N/A".toList : Frontend.SecurityThreat }.timestamp
          = "N/A".toList)) :=
  ⟨(fallback_analyzer_caps demoLog none).1,
   ((fallback_analyzer_caps demoLog none).2.2.2.1 _ (by decide)).1,
   ((fallback_analyzer_caps demoLog none).2.2.2.1 _ (by decide)).2.1⟩

set_option maxRecDepth 100000 in
/-- Counterexample for C7: on a log with five security-keyword lines the
backend fallback produces five security threats, more than the claimed
cap of the first 3, and stamps them with the invocation time rather than
the fixed timestamp N/A. -/
theorem backend_fallback_breaks_caps :
    ¬ ((Backend.createFallbackAnalysis secLog5 now0).securityThreats.length ≤ 3
      ∧ ∀ t ∈ (Backend.createFallbackAnalysis secLog5 now0).securityThreats,
          t.timestamp = JsValue.str "N/A".toList) := by
  decide

/-- C8 amended: the frontend fallback analyzer is deterministic — any
two results obtained from the same log text and the same last-error
value are equal — and every entry it generates carries the fixed
timestamp N/A, with no dependence on a clock; the backend variant stamps
its entries with the invocation time instead (see the counterexample). -/
theorem frontend_fallback_deterministic (logs : List Char)
    (err : Option (List Char)) (r₁ r₂ : Frontend.LogAnalysis)
    (h₁ : r₁ = Frontend.createFallbackAnalysis logs err)
    (h₂ : r₂ = Frontend.createFallbackAnalysis logs err) :
    r₁ = r₂
    ∧ (∀ t ∈ r₁.securityThreats, t.timestamp = "N/A".toList)
    ∧ (∀ i ∈ r₁.operationalIssues, i.timestamp = "N/A".toList) := by
  subst h₁ h₂
  refine ⟨rfl, ?_, ?_⟩
  · intro t ht
    simp only [Frontend.createFallbackAnalysis] at ht
    obtain ⟨line, _, rfl⟩ := List.mem_map.mp ht
    rfl
  · intro i hi
    simp only [Frontend.createFallbackAnalysis] at hi
    rcases List.mem_append.mp hi with h | h
    · obtain ⟨line, _, rfl⟩ := List.mem_map.mp h
      rfl
    · obtain ⟨line, _, rfl⟩ := List.mem_map.mp h
      rfl

set_option maxRecDepth 100000 in
/-- Witness for C8 at a concrete one-line error log: the two invocations
agree, and the concrete issue generated from that line is stamped N/A. -/
theorem frontend_fallback_deterministic_witness :
    Frontend.createFallbackAnalysis errLog1 none
      = Frontend.createFallbackAnalysis errLog1 none
    ∧ ({ type := IssueType.Error
         description := "Error detected: error: disk is on fire...".toList
         recommendation := "Investigate and resolve this error".toList
         timestamp := "N/A".toList : Frontend.OperationalIssue }.timestamp
        = "N/A".toList) :=
  ⟨(frontend_fallback_deterministic errLog1 none _ _ rfl rfl).1,
   (frontend_fallback_deterministic errLog1 none _ _ rfl rfl).2.2 _ (by decide)⟩

set_option maxRecDepth 100000 in
/-- Counterexample for C8: at two different clock readings the backend
fallback produces different results on the same log text, because entry
timestamps embed the invocation time. -/
theorem backend_fallback_depends_on_clock :
    Backend.createFallbackAnalysis errLog1 now0
      ≠ Backend.createFallbackAnalysis errLog1 now1 := by
  decide

end LogSleuth
